import Mathlib

/-!
Verification of the GTpo graph-topology engine and its observer
notification system (QuickQanava repository).

The observer base class and the `node_observer` callback interface are
embedded directly from `src/gtpo/observer.h`.  The graph container, the
observable-node mixin and the mutation API are not part of the provided
sources (only `observer.h` and the GUI header `qanGroup.h` are); they are
modelled from the specification, see the doc comments starting with
`Modelled from the spec:`.
-/

namespace Gtpo

/-- An edge of the topology: one source node id and one destination node id
(spec: an edge has exactly one source node reference and one destination
node reference). -/
structure Edge where
  src : Nat
  dst : Nat
deriving DecidableEq

/-- A node of the topology: identity, ordered in-edge and out-edge lists
(edge ids), an optional containing group and the ordered list of attached
observer ids (spec data model, section 3). -/
structure Node where
  id : Nat
  inEdges : List Nat
  outEdges : List Nat
  group : Option Nat
  observers : List Nat
deriving DecidableEq

/-- Embedded from `gtpo::observer` in `src/gtpo/observer.h`: a target
pointer (`target_t* _target = nullptr`), a name (`std::string _name = ""`)
and an enabled flag (`bool _enabled = true`).  Pointers are modelled as
`Option Nat` (node id), the null pointer is `none`; the field initialisers
of the C++ class become Lean default field values. -/
structure observer where
  _target : Option Nat := none
  _name : String := ""
  _enabled : Bool := true
deriving DecidableEq

/-- The C++ default constructor `observer() noexcept { }`: every field
keeps its member initialiser. -/
def observer.default : observer := {}

/-- `target_t* get_target() noexcept { return _target; }` -/
def observer.get_target (o : observer) : Option Nat := o._target

/-- `void set_target(target_t* target) { _target = target; }` -/
def observer.set_target (o : observer) (target : Option Nat) : observer :=
  { o with _target := target }

/-- `auto getName() const noexcept -> const std::string& { return _name; }` -/
def observer.getName (o : observer) : String := o._name

/-- `auto setName(const std::string& name) noexcept -> void { _name = name; }` -/
def observer.setName (o : observer) (name : String) : observer :=
  { o with _name := name }

/-- `auto enable() noexcept -> void { _enabled = true; }` -/
def observer.enable (o : observer) : observer := { o with _enabled := true }

/-- `auto disable() noexcept -> void { _enabled = false; }` -/
def observer.disable (o : observer) : observer := { o with _enabled := false }

/-- `auto isEnabled() const noexcept -> bool { return _enabled; }` -/
def observer.isEnabled (o : observer) : Bool := o._enabled

/-- Default body of `node_observer::on_in_node_inserted(node_t& target,
node_t& weakInNode, const edge_t& edge)`: the C++ body only casts its
arguments to void, so the observer state and every argument are left
untouched; modelled as returning state and arguments unchanged. -/
def default_on_in_node_inserted {σ : Type} (st : σ) (target weakInNode : Node)
    (edge : Edge) : σ × Node × Node × Edge :=
  (st, target, weakInNode, edge)

/-- Default body of the edge-context overload
`node_observer::on_in_node_removed(node_t&, node_t&, const edge_t&)`:
a no-op. -/
def default_on_in_node_removed {σ : Type} (st : σ) (target weakInNode : Node)
    (edge : Edge) : σ × Node × Node × Edge :=
  (st, target, weakInNode, edge)

/-- Default body of the no-context overload
`node_observer::on_in_node_removed(node_t& target)`: a no-op. -/
def default_on_in_node_removed_final {σ : Type} (st : σ) (target : Node) :
    σ × Node :=
  (st, target)

/-- Default body of `node_observer::on_out_node_inserted(node_t&, node_t&,
const edge_t&)`: a no-op. -/
def default_on_out_node_inserted {σ : Type} (st : σ) (target weakOutNode : Node)
    (edge : Edge) : σ × Node × Node × Edge :=
  (st, target, weakOutNode, edge)

/-- Default body of the edge-context overload
`node_observer::on_out_node_removed(node_t&, node_t&, const edge_t&)`:
a no-op. -/
def default_on_out_node_removed {σ : Type} (st : σ) (target weakOutNode : Node)
    (edge : Edge) : σ × Node × Node × Edge :=
  (st, target, weakOutNode, edge)

/-- Default body of the no-context overload
`node_observer::on_out_node_removed(node_t& target)`: a no-op. -/
def default_on_out_node_removed_final {σ : Type} (st : σ) (target : Node) :
    σ × Node :=
  (st, target)

/-- Embedded from `gtpo::node_observer` in `src/gtpo/observer.h`: the
observer base plus the six overridable virtual callbacks (the C++ class
overloads `on_in_node_removed` and `on_out_node_removed`, here the
one-argument overloads carry the suffix `_final`).  A concrete observer
subclass is a choice of internal state type `σ` and of hook functions;
a hook left at its default value is the no-op body of the source. -/
structure node_observer (σ : Type) where
  base : observer
  st : σ
  on_in_node_inserted : σ → Node → Node → Edge → σ × Node × Node × Edge :=
    default_on_in_node_inserted
  on_in_node_removed : σ → Node → Node → Edge → σ × Node × Node × Edge :=
    default_on_in_node_removed
  on_in_node_removed_final : σ → Node → σ × Node :=
    default_on_in_node_removed_final
  on_out_node_inserted : σ → Node → Node → Edge → σ × Node × Node × Edge :=
    default_on_out_node_inserted
  on_out_node_removed : σ → Node → Node → Edge → σ × Node × Node × Edge :=
    default_on_out_node_removed
  on_out_node_removed_final : σ → Node → σ × Node :=
    default_on_out_node_removed_final

/-- The callback hooks declared by `gtpo::node_observer`, one constructor
per virtual method of the source class (the two C++ overload pairs give
the `_edge` / `_final` pairs). -/
inductive NodeObserverHook where
  | on_in_node_inserted
  | on_in_node_removed_edge
  | on_in_node_removed_final
  | on_out_node_inserted
  | on_out_node_removed_edge
  | on_out_node_removed_final
deriving DecidableEq

/-- The hooks of `gtpo::node_observer`, in declaration order of
`src/gtpo/observer.h` (lines 121-145). -/
def nodeObserverHooks : List NodeObserverHook :=
  [.on_in_node_inserted, .on_in_node_removed_edge, .on_in_node_removed_final,
   .on_out_node_inserted, .on_out_node_removed_edge, .on_out_node_removed_final]

/-- A notification event, as dispatched to one observer: the constructor
identifies which `node_observer` hook is invoked and the arguments carry
the target node id, the other endpoint's node id and the edge id. -/
inductive Event where
  | on_in_node_inserted (target other eid : Nat)
  | on_in_node_removed_edge (target other eid : Nat)
  | on_in_node_removed_final (target : Nat)
  | on_out_node_inserted (target other eid : Nat)
  | on_out_node_removed_edge (target other eid : Nat)
  | on_out_node_removed_final (target : Nat)
deriving DecidableEq

/-- The `node_observer` hook an event is delivered to. -/
def eventHook : Event → NodeObserverHook
  | .on_in_node_inserted _ _ _ => .on_in_node_inserted
  | .on_in_node_removed_edge _ _ _ => .on_in_node_removed_edge
  | .on_in_node_removed_final _ => .on_in_node_removed_final
  | .on_out_node_inserted _ _ _ => .on_out_node_inserted
  | .on_out_node_removed_edge _ _ _ => .on_out_node_removed_edge
  | .on_out_node_removed_final _ => .on_out_node_removed_final

/-- Typed failure results of the mutation API (spec, section 7). -/
inductive GraphError where
  | notFoundError
  | invalidEndpointError
deriving DecidableEq

/-- Modelled from the spec: the graph container (not in the provided
sources) owns all nodes and edges, the table of observer states (the
states of the observers attached to its nodes, keyed by observer id), and
fresh-id counters for nodes and edges. -/
structure Graph where
  nodes : List Node
  edges : List (Nat × Edge)
  obs : List (Nat × observer)
  nextNodeId : Nat
  nextEdgeId : Nat
deriving DecidableEq

/-- One notification delivery: the graph state at the instant the callback
fires (`pre`), the observer receiving the callback and the event. -/
structure Step where
  pre : Graph
  observerId : Nat
  event : Event
deriving DecidableEq

/-- Look a node up by id (first match). -/
def findNode : List Node → Nat → Option Node
  | [], _ => none
  | n :: ns, nid => if n.id = nid then some n else findNode ns nid

/-- Look an edge up by id (first match). -/
def findEdge : List (Nat × Edge) → Nat → Option Edge
  | [], _ => none
  | p :: ps, eid => if p.1 = eid then some p.2 else findEdge ps eid

/-- Look an observer state up by id (first match). -/
def findObs : List (Nat × observer) → Nat → Option observer
  | [], _ => none
  | p :: ps, oid => if p.1 = oid then some p.2 else findObs ps oid

/-- Whether the observer with id `oid` is currently enabled in `g`
(an id with no recorded state counts as not enabled). -/
def observerEnabled (g : Graph) (oid : Nat) : Bool :=
  match findObs g.obs oid with
  | some o => o.isEnabled
  | none => false

/-- Modelled from the spec: the observable-node fan-out (not in the
provided sources).  For one notification kind, iterate the node's observer
collection in attachment order and deliver the event only to observers
whose isEnabled() is true; disabled observers are skipped silently.  Each
delivery records the graph state `g` at which the callback fires. -/
def fanOutSteps (g : Graph) (nid : Nat) (ev : Event) : List Step :=
  match findNode g.nodes nid with
  | none => []
  | some n =>
    (n.observers.filter (fun oid => observerEnabled g oid)).map
      (fun oid => { pre := g, observerId := oid, event := ev })

/-- Modelled from the spec: `insert_node()` creates a new Node with empty
adjacency and observer set; always succeeds.  Returns the new container
and the fresh node id. -/
def insert_node (g : Graph) : Graph × Nat :=
  ({ g with
      nodes := g.nodes ++ [{ id := g.nextNodeId, inEdges := [], outEdges := [],
                             group := none, observers := [] }],
      nextNodeId := g.nextNodeId + 1 },
   g.nextNodeId)

/-- Append edge id `eid` to the out-list of the node with id `nid`. -/
def addOut (eid nid : Nat) (n : Node) : Node :=
  if n.id = nid then { n with outEdges := n.outEdges ++ [eid] } else n

/-- Append edge id `eid` to the in-list of the node with id `nid`. -/
def addIn (eid nid : Nat) (n : Node) : Node :=
  if n.id = nid then { n with inEdges := n.inEdges ++ [eid] } else n

/-- Modelled from the spec: `insert_edge(src, dst)` fails with
InvalidEndpointError if either endpoint is not a member of this container;
on success it appends the new edge to src's out-list and dst's in-list and
then triggers `on_out_node_inserted(src, dst, edge)` on src's observers
and `on_in_node_inserted(dst, src, edge)` on dst's observers, in that
order (source side notified before destination side). -/
def insert_edge (g : Graph) (src dst : Nat) :
    Except GraphError (Graph × Nat × List Step) :=
  match findNode g.nodes src, findNode g.nodes dst with
  | some _, some _ =>
    let eid := g.nextEdgeId
    let g' : Graph :=
      { g with
        nodes := g.nodes.map (fun n => addIn eid dst (addOut eid src n)),
        edges := g.edges ++ [(eid, { src := src, dst := dst })],
        nextEdgeId := eid + 1 }
    .ok (g', eid,
      fanOutSteps g' src (.on_out_node_inserted src dst eid) ++
      fanOutSteps g' dst (.on_in_node_inserted dst src eid))
  | _, _ => .error .invalidEndpointError

/-- Drop edge id `eid` from both adjacency lists of a node. -/
def removeAdj (eid : Nat) (n : Node) : Node :=
  { n with
    inEdges := n.inEdges.filter (fun k => k ≠ eid),
    outEdges := n.outEdges.filter (fun k => k ≠ eid) }

/-- Modelled from the spec: `remove_edge(e)` fails with NotFoundError if
`e` is not a member.  Otherwise the edge-context callbacks
(`on_out_node_removed(src, dst, e)` then `on_in_node_removed(dst, src, e)`)
fire while the edge is still present in the adjacency lists, then the edge
is detached from both adjacency lists, then the no-context callbacks
(`on_out_node_removed(src)`, `on_in_node_removed(dst)`) fire. -/
def remove_edge (g : Graph) (eid : Nat) :
    Except GraphError (Graph × List Step) :=
  match findEdge g.edges eid with
  | none => .error .notFoundError
  | some e =>
    let g' : Graph :=
      { g with
        nodes := g.nodes.map (removeAdj eid),
        edges := g.edges.filter (fun p => p.1 ≠ eid) }
    .ok (g',
      (fanOutSteps g e.src (.on_out_node_removed_edge e.src e.dst eid) ++
       fanOutSteps g e.dst (.on_in_node_removed_edge e.dst e.src eid)) ++
      (fanOutSteps g' e.src (.on_out_node_removed_final e.src) ++
       fanOutSteps g' e.dst (.on_in_node_removed_final e.dst)))

/-- The ids of the edges touching node `nid` (as source or destination),
in edge-container order. -/
def touchingEdges (g : Graph) (nid : Nat) : List Nat :=
  (g.edges.filter (fun p => p.2.src = nid ∨ p.2.dst = nid)).map (fun p => p.1)

/-- Remove the listed edges one after the other, each removal following
the full edge-removal protocol; an id that is no longer a member is
skipped.  Returns the final container and the concatenated notification
steps. -/
def remove_edges (g : Graph) : List Nat → Graph × List Step
  | [] => (g, [])
  | eid :: rest =>
    match remove_edge g eid with
    | .ok (g', s) =>
      let r := remove_edges g' rest
      (r.1, s ++ r.2)
    | .error _ => remove_edges g rest

/-- Modelled from the spec: `remove_node(n)` fails with NotFoundError if
the node is not a member.  Otherwise it removes all edges touching the
node first (cascading removal, each following the edge-removal protocol),
detaches the node from any group, then destroys it. -/
def remove_node (g : Graph) (nid : Nat) :
    Except GraphError (Graph × List Step) :=
  match findNode g.nodes nid with
  | none => .error .notFoundError
  | some _ =>
    let r := remove_edges g (touchingEdges g nid)
    let g2 : Graph :=
      { r.1 with
        nodes := r.1.nodes.map
          (fun n => if n.id = nid then { n with group := none } else n) }
    let g3 : Graph := { g2 with nodes := g2.nodes.filter (fun n => n.id ≠ nid) }
    .ok (g3, r.2)

/-- A cascading removal trace: the listed edges are removed one after the
other through `remove_edge`, each call succeeding and contributing its
full notification trace (so each removal follows the complete
edge-removal notification protocol), ending in the container `gEnd`. -/
def removalChain : Graph → List Nat → Graph → List Step → Prop
  | g0, [], gEnd, steps => gEnd = g0 ∧ steps = []
  | g0, eid :: rest, gEnd, steps =>
    ∃ g1 seg tail, remove_edge g0 eid = .ok (g1, seg) ∧
      steps = seg ++ tail ∧ removalChain g1 rest gEnd tail

/-- Modelled from the spec: `insert_node_into_group` reassigns a node's
group back-reference. -/
def insert_node_into_group (g : Graph) (nid gid : Nat) : Graph :=
  { g with
    nodes := g.nodes.map
      (fun n => if n.id = nid then { n with group := some gid } else n) }

/-- Modelled from the spec: `remove_node_from_group` clears a node's group
back-reference; it does not destroy the node. -/
def remove_node_from_group (g : Graph) (nid : Nat) : Graph :=
  { g with
    nodes := g.nodes.map
      (fun n => if n.id = nid then { n with group := none } else n) }

/-- Modelled from the spec: `attach(observer)` appends the observer to the
node's collection (a second attachment of the same observer is a no-op)
and sets the observer's target back-reference to this node; a freshly
created observer state starts with the C++ member initialisers, hence
enabled. -/
def attach_observer (g : Graph) (nid oid : Nat) : Graph :=
  match findNode g.nodes nid with
  | none => g
  | some n =>
    if oid ∈ n.observers then g
    else
      { g with
        nodes := g.nodes.map
          (fun m => if m.id = nid then { m with observers := m.observers ++ [oid] } else m),
        obs :=
          match findObs g.obs oid with
          | some _ =>
            g.obs.map
              (fun p => if p.1 = oid then (p.1, p.2.set_target (some nid)) else p)
          | none => g.obs ++ [(oid, observer.default.set_target (some nid))] }

/-- Modelled from the spec: `detach(observer)` removes the observer from
the node's collection; it destroys neither the node nor other observers. -/
def detach_observer (g : Graph) (nid oid : Nat) : Graph :=
  { g with
    nodes := g.nodes.map
      (fun m =>
        if m.id = nid then { m with observers := m.observers.filter (fun x => x ≠ oid) }
        else m) }

/-- Enable the observer with id `oid` (observer.enable on its state). -/
def enable_observer (g : Graph) (oid : Nat) : Graph :=
  { g with
    obs := g.obs.map (fun p => if p.1 = oid then (p.1, p.2.enable) else p) }

/-- Disable the observer with id `oid` (observer.disable on its state). -/
def disable_observer (g : Graph) (oid : Nat) : Graph :=
  { g with
    obs := g.obs.map (fun p => if p.1 = oid then (p.1, p.2.disable) else p) }

/-- The mutation operations of the container API (spec, section 6). -/
inductive Op where
  | insertNode
  | removeNode (nid : Nat)
  | insertEdge (src dst : Nat)
  | removeEdge (eid : Nat)
  | insertNodeIntoGroup (nid gid : Nat)
  | removeNodeFromGroup (nid : Nat)
  | attachObserver (nid oid : Nat)
  | detachObserver (nid oid : Nat)
  | enableObserver (oid : Nat)
  | disableObserver (oid : Nat)
deriving DecidableEq

/-- Apply one mutation operation; a failing operation leaves the container
unchanged and emits no notification. -/
def applyOp (g : Graph) : Op → Graph × List Step
  | .insertNode => ((insert_node g).1, [])
  | .removeNode nid =>
    match remove_node g nid with
    | .ok r => r
    | .error _ => (g, [])
  | .insertEdge src dst =>
    match insert_edge g src dst with
    | .ok (g', _, s) => (g', s)
    | .error _ => (g, [])
  | .removeEdge eid =>
    match remove_edge g eid with
    | .ok r => r
    | .error _ => (g, [])
  | .insertNodeIntoGroup nid gid => (insert_node_into_group g nid gid, [])
  | .removeNodeFromGroup nid => (remove_node_from_group g nid, [])
  | .attachObserver nid oid => (attach_observer g nid oid, [])
  | .detachObserver nid oid => (detach_observer g nid oid, [])
  | .enableObserver oid => (enable_observer g oid, [])
  | .disableObserver oid => (disable_observer g oid, [])

/-- Run a sequence of mutation operations. -/
def runOps (g : Graph) : List Op → Graph
  | [] => g
  | op :: ops => runOps (applyOp g op).1 ops

/-- The empty container. -/
def emptyGraph : Graph :=
  { nodes := [], edges := [], obs := [], nextNodeId := 0, nextEdgeId := 0 }

/-- Example container: one node (id 0). -/
def exG1 : Graph := runOps emptyGraph [.insertNode]

/-- Example container: two nodes (ids 0 and 1). -/
def exG2 : Graph := runOps emptyGraph [.insertNode, .insertNode]

/-- Example container: two nodes and one edge 0 -> 1 (edge id 0). -/
def exG3 : Graph := runOps emptyGraph [.insertNode, .insertNode, .insertEdge 0 1]

/-- Example container: one node with observers 10 (enabled) and 11
(disabled). -/
def exG5 : Graph :=
  runOps emptyGraph
    [.insertNode, .attachObserver 0 10, .attachObserver 0 11,
     .disableObserver 11]

/-- The adjacency symmetry invariant (spec, section 3): every edge
referenced in a node's out-list has that node as source, and every edge
referenced in a node's in-list has that node as destination. -/
def adjacencySymmetric (g : Graph) : Prop :=
  ∀ n ∈ g.nodes,
    (∀ eid ∈ n.outEdges, ∃ e, findEdge g.edges eid = some e ∧ e.src = n.id) ∧
    (∀ eid ∈ n.inEdges, ∃ e, findEdge g.edges eid = some e ∧ e.dst = n.id)

/-- Well-formedness of a container: edge ids are below the fresh-id
counter, adjacency symmetry holds, every edge is registered in its
source's out-list and its destination's in-list, and edge ids are
pairwise distinct. -/
structure WF (g : Graph) : Prop where
  edgeBound : ∀ p ∈ g.edges, p.1 < g.nextEdgeId
  outSym : ∀ n ∈ g.nodes, ∀ eid ∈ n.outEdges,
    ∃ e, findEdge g.edges eid = some e ∧ e.src = n.id
  inSym : ∀ n ∈ g.nodes, ∀ eid ∈ n.inEdges,
    ∃ e, findEdge g.edges eid = some e ∧ e.dst = n.id
  srcAdj : ∀ p ∈ g.edges, ∃ m, findNode g.nodes p.2.src = some m ∧ p.1 ∈ m.outEdges
  dstAdj : ∀ p ∈ g.edges, ∃ m, findNode g.nodes p.2.dst = some m ∧ p.1 ∈ m.inEdges
  edgesNodup : (g.edges.map Prod.fst).Nodup

end Gtpo

namespace Gtpo

theorem findNode_eq_some {ns : List Node} {nid : Nat} {n : Node}
    (h : findNode ns nid = some n) : n ∈ ns ∧ n.id = nid := by
  induction ns with
  | nil => simp [findNode] at h
  | cons m ms ih =>
    by_cases hm : m.id = nid
    · rw [findNode, if_pos hm] at h
      injection h with h
      subst h
      exact ⟨List.mem_cons_self _ _, hm⟩
    · rw [findNode, if_neg hm] at h
      obtain ⟨h1, h2⟩ := ih h
      exact ⟨List.mem_cons_of_mem _ h1, h2⟩

theorem findNode_map {f : Node → Node} (hid : ∀ n, (f n).id = n.id) :
    ∀ (ns : List Node) (nid : Nat),
      findNode (ns.map f) nid = Option.map f (findNode ns nid) := by
  intro ns nid
  induction ns with
  | nil => rfl
  | cons m ms ih =>
    by_cases hm : m.id = nid
    · simp [findNode, hid, hm]
    · simp [findNode, hid, hm, ih]

theorem findNode_append_left {ns ms : List Node} {nid : Nat} {n : Node}
    (h : findNode ns nid = some n) : findNode (ns ++ ms) nid = some n := by
  induction ns with
  | nil => simp [findNode] at h
  | cons m ts ih =>
    by_cases hm : m.id = nid
    · rw [findNode, if_pos hm] at h
      rw [List.cons_append, findNode, if_pos hm]
      exact h
    · rw [findNode, if_neg hm] at h
      rw [List.cons_append, findNode, if_neg hm]
      exact ih h

theorem findNode_append_right {ns ms : List Node} {nid : Nat}
    (h : findNode ns nid = none) :
    findNode (ns ++ ms) nid = findNode ms nid := by
  induction ns with
  | nil => rfl
  | cons m ts ih =>
    by_cases hm : m.id = nid
    · rw [findNode, if_pos hm] at h
      cases h
    · rw [findNode, if_neg hm] at h
      rw [List.cons_append, findNode, if_neg hm]
      exact ih h

theorem findNode_filter_ne {ns : List Node} {k nid : Nat} (h : nid ≠ k) :
    findNode (ns.filter (fun n => n.id ≠ k)) nid = findNode ns nid := by
  simp only [ne_eq, decide_not]
  induction ns with
  | nil => rfl
  | cons m ms ih =>
    by_cases hm : m.id = k
    · have hmn : ¬ (m.id = nid) := by
        rw [hm]; exact fun hk => h hk.symm
      simp [List.filter_cons, hm, findNode, hmn, ih, Ne.symm h]
    · simp [List.filter_cons, hm, findNode, ih]

theorem findNode_filter_self {ns : List Node} {k : Nat} :
    findNode (ns.filter (fun n => n.id ≠ k)) k = none := by
  simp only [ne_eq, decide_not]
  induction ns with
  | nil => rfl
  | cons m ms ih =>
    by_cases hm : m.id = k
    · simp [List.filter_cons, hm, ih]
    · simp [List.filter_cons, hm, findNode, ih]

theorem findEdge_eq_some {ps : List (Nat × Edge)} {eid : Nat} {e : Edge}
    (h : findEdge ps eid = some e) : (eid, e) ∈ ps := by
  induction ps with
  | nil => simp [findEdge] at h
  | cons p ts ih =>
    obtain ⟨k, e2⟩ := p
    by_cases hk : k = eid
    · rw [findEdge, if_pos hk] at h
      injection h with h
      subst h; subst hk
      exact List.mem_cons_self _ _
    · rw [findEdge, if_neg hk] at h
      exact List.mem_cons_of_mem _ (ih h)

theorem findEdge_none_iff {ps : List (Nat × Edge)} {eid : Nat} :
    findEdge ps eid = none ↔ ∀ p ∈ ps, p.1 ≠ eid := by
  induction ps with
  | nil => simp [findEdge]
  | cons p ts ih =>
    by_cases hk : p.1 = eid
    · rw [findEdge, if_pos hk]
      constructor
      · intro h; cases h
      · intro h
        exact absurd hk (h p (List.mem_cons_self _ _))
    · rw [findEdge, if_neg hk, ih]
      constructor
      · intro h q hq
        rcases List.mem_cons.mp hq with hq | hq
        · rw [hq]; exact hk
        · exact h q hq
      · intro h q hq
        exact h q (List.mem_cons_of_mem _ hq)

theorem findEdge_append_left {ps qs : List (Nat × Edge)} {eid : Nat} {e : Edge}
    (h : findEdge ps eid = some e) : findEdge (ps ++ qs) eid = some e := by
  induction ps with
  | nil => simp [findEdge] at h
  | cons p ts ih =>
    by_cases hk : p.1 = eid
    · rw [findEdge, if_pos hk] at h
      rw [List.cons_append, findEdge, if_pos hk]
      exact h
    · rw [findEdge, if_neg hk] at h
      rw [List.cons_append, findEdge, if_neg hk]
      exact ih h

theorem findEdge_append_right {ps qs : List (Nat × Edge)} {eid : Nat}
    (h : findEdge ps eid = none) :
    findEdge (ps ++ qs) eid = findEdge qs eid := by
  induction ps with
  | nil => rfl
  | cons p ts ih =>
    by_cases hk : p.1 = eid
    · rw [findEdge, if_pos hk] at h
      cases h
    · rw [findEdge, if_neg hk] at h
      rw [List.cons_append, findEdge, if_neg hk]
      exact ih h

theorem findEdge_filter_ne {ps : List (Nat × Edge)} {k eid : Nat} (h : eid ≠ k) :
    findEdge (ps.filter (fun p => p.1 ≠ k)) eid = findEdge ps eid := by
  simp only [ne_eq, decide_not]
  induction ps with
  | nil => rfl
  | cons p ts ih =>
    by_cases hk : p.1 = k
    · have hpe : ¬ (p.1 = eid) := by
        rw [hk]; exact fun he => h he.symm
      simp [List.filter_cons, hk, findEdge, hpe, ih, Ne.symm h]
    · simp [List.filter_cons, hk, findEdge, ih]

theorem findEdge_filter_self {ps : List (Nat × Edge)} {k : Nat} :
    findEdge (ps.filter (fun p => p.1 ≠ k)) k = none := by
  simp only [ne_eq, decide_not]
  induction ps with
  | nil => rfl
  | cons p ts ih =>
    by_cases hk : p.1 = k
    · simp [List.filter_cons, hk, ih]
    · simp [List.filter_cons, hk, findEdge, ih]

theorem findObs_append_right {ps qs : List (Nat × observer)} {oid : Nat}
    (h : findObs ps oid = none) :
    findObs (ps ++ qs) oid = findObs qs oid := by
  induction ps with
  | nil => rfl
  | cons p ts ih =>
    by_cases hk : p.1 = oid
    · rw [findObs, if_pos hk] at h
      cases h
    · rw [findObs, if_neg hk] at h
      rw [List.cons_append, findObs, if_neg hk]
      exact ih h

theorem addOut_id (eid nid : Nat) (n : Node) : (addOut eid nid n).id = n.id := by
  by_cases h : n.id = nid <;> simp [addOut, h]

theorem addOut_inEdges (eid nid : Nat) (n : Node) :
    (addOut eid nid n).inEdges = n.inEdges := by
  by_cases h : n.id = nid <;> simp [addOut, h]

theorem addOut_outEdges (eid nid : Nat) (n : Node) :
    (addOut eid nid n).outEdges =
      if n.id = nid then n.outEdges ++ [eid] else n.outEdges := by
  by_cases h : n.id = nid <;> simp [addOut, h]

theorem addIn_id (eid nid : Nat) (n : Node) : (addIn eid nid n).id = n.id := by
  by_cases h : n.id = nid <;> simp [addIn, h]

theorem addIn_outEdges (eid nid : Nat) (n : Node) :
    (addIn eid nid n).outEdges = n.outEdges := by
  by_cases h : n.id = nid <;> simp [addIn, h]

theorem addIn_inEdges (eid nid : Nat) (n : Node) :
    (addIn eid nid n).inEdges =
      if n.id = nid then n.inEdges ++ [eid] else n.inEdges := by
  by_cases h : n.id = nid <;> simp [addIn, h]

theorem wf_map_nodes {g : Graph} {f : Node → Node}
    (hid : ∀ n, (f n).id = n.id)
    (hin : ∀ n, (f n).inEdges = n.inEdges)
    (hout : ∀ n, (f n).outEdges = n.outEdges)
    (h : WF g) : WF { g with nodes := g.nodes.map f } := by
  constructor
  · exact h.edgeBound
  · intro n hn k hk
    obtain ⟨m, hm, hfm⟩ := List.mem_map.mp hn
    subst hfm
    rw [hout] at hk
    obtain ⟨e, h1, h2⟩ := h.outSym m hm k hk
    exact ⟨e, h1, by rw [hid]; exact h2⟩
  · intro n hn k hk
    obtain ⟨m, hm, hfm⟩ := List.mem_map.mp hn
    subst hfm
    rw [hin] at hk
    obtain ⟨e, h1, h2⟩ := h.inSym m hm k hk
    exact ⟨e, h1, by rw [hid]; exact h2⟩
  · intro p hp
    obtain ⟨m, h1, h2⟩ := h.srcAdj p hp
    refine ⟨f m, ?_, ?_⟩
    · show findNode (g.nodes.map f) p.2.src = some (f m)
      rw [findNode_map hid, h1]
      rfl
    · rw [hout]
      exact h2
  · intro p hp
    obtain ⟨m, h1, h2⟩ := h.dstAdj p hp
    refine ⟨f m, ?_, ?_⟩
    · show findNode (g.nodes.map f) p.2.dst = some (f m)
      rw [findNode_map hid, h1]
      rfl
    · rw [hin]
      exact h2
  · exact h.edgesNodup

theorem wf_set_obs {g : Graph} (os : List (Nat × observer)) (h : WF g) :
    WF { g with obs := os } :=
  ⟨h.edgeBound, h.outSym, h.inSym, h.srcAdj, h.dstAdj, h.edgesNodup⟩

theorem wf_insert_node {g : Graph} (h : WF g) : WF (insert_node g).1 := by
  constructor
  · exact h.edgeBound
  · intro n hn k hk
    rcases List.mem_append.mp hn with hn | hn
    · exact h.outSym n hn k hk
    · simp at hn
      subst hn
      simp at hk
  · intro n hn k hk
    rcases List.mem_append.mp hn with hn | hn
    · exact h.inSym n hn k hk
    · simp at hn
      subst hn
      simp at hk
  · intro p hp
    obtain ⟨m, h1, h2⟩ := h.srcAdj p hp
    exact ⟨m, findNode_append_left h1, h2⟩
  · intro p hp
    obtain ⟨m, h1, h2⟩ := h.dstAdj p hp
    exact ⟨m, findNode_append_left h1, h2⟩
  · exact h.edgesNodup

theorem wf_insert_edge {g : Graph} {src dst : Nat} {g' : Graph} {eid : Nat}
    {steps : List Step} (h : WF g)
    (hok : insert_edge g src dst = .ok (g', eid, steps)) : WF g' := by
  cases hs : findNode g.nodes src with
  | none => simp [insert_edge, hs] at hok
  | some ns =>
    cases hd : findNode g.nodes dst with
    | none => simp [insert_edge, hs, hd] at hok
    | some nd =>
      rw [insert_edge] at hok
      rw [hs, hd] at hok
      simp only [Except.ok.injEq, Prod.mk.injEq] at hok
      obtain ⟨h1, _h2, _h3⟩ := hok
      subst h1
      set ne := g.nextEdgeId with hne
      set f : Node → Node := fun n => addIn ne dst (addOut ne src n) with hf
      have hfid : ∀ n, (f n).id = n.id := by
        intro n
        rw [hf]
        simp [addIn_id, addOut_id]
      have hfin : ∀ n, (f n).inEdges =
          if n.id = dst then n.inEdges ++ [ne] else n.inEdges := by
        intro n
        rw [hf]
        simp only [addIn_inEdges, addOut_id, addOut_inEdges]
      have hfout : ∀ n, (f n).outEdges =
          if n.id = src then n.outEdges ++ [ne] else n.outEdges := by
        intro n
        rw [hf]
        simp only [addIn_outEdges, addOut_outEdges]
      have hfresh : findEdge g.edges ne = none :=
        findEdge_none_iff.mpr (fun p hp => Nat.ne_of_lt (h.edgeBound p hp))
      have hnew : findEdge (g.edges ++ [(ne, { src := src, dst := dst })]) ne =
          some { src := src, dst := dst } := by
        rw [findEdge_append_right hfresh]
        simp [findEdge]
      constructor
      · intro p hp
        rcases List.mem_append.mp hp with hp | hp
        · exact Nat.lt_succ_of_lt (h.edgeBound p hp)
        · simp at hp
          subst hp
          exact Nat.lt_succ_self _
      · intro n hn k hk
        obtain ⟨m, hm, hfm⟩ := List.mem_map.mp hn
        subst hfm
        rw [hfout] at hk
        by_cases hms : m.id = src
        · rw [if_pos hms] at hk
          rcases List.mem_append.mp hk with hk | hk
          · obtain ⟨e, he1, he2⟩ := h.outSym m hm k hk
            exact ⟨e, findEdge_append_left he1, by rw [hfid]; exact he2⟩
          · simp at hk
            subst hk
            exact ⟨{ src := src, dst := dst }, hnew, by rw [hfid]; exact hms.symm⟩
        · rw [if_neg hms] at hk
          obtain ⟨e, he1, he2⟩ := h.outSym m hm k hk
          exact ⟨e, findEdge_append_left he1, by rw [hfid]; exact he2⟩
      · intro n hn k hk
        obtain ⟨m, hm, hfm⟩ := List.mem_map.mp hn
        subst hfm
        rw [hfin] at hk
        by_cases hmd : m.id = dst
        · rw [if_pos hmd] at hk
          rcases List.mem_append.mp hk with hk | hk
          · obtain ⟨e, he1, he2⟩ := h.inSym m hm k hk
            exact ⟨e, findEdge_append_left he1, by rw [hfid]; exact he2⟩
          · simp at hk
            subst hk
            exact ⟨{ src := src, dst := dst }, hnew, by rw [hfid]; exact hmd.symm⟩
        · rw [if_neg hmd] at hk
          obtain ⟨e, he1, he2⟩ := h.inSym m hm k hk
          exact ⟨e, findEdge_append_left he1, by rw [hfid]; exact he2⟩
      · intro p hp
        rcases List.mem_append.mp hp with hp | hp
        · obtain ⟨m, h1, h2⟩ := h.srcAdj p hp
          refine ⟨f m, ?_, ?_⟩
          · show findNode (g.nodes.map f) p.2.src = some (f m)
            rw [findNode_map hfid, h1]
            rfl
          · rw [hfout]
            by_cases hms : m.id = src
            · rw [if_pos hms]
              exact List.mem_append_left _ h2
            · rw [if_neg hms]
              exact h2
        · simp at hp
          rw [hp]
          refine ⟨f ns, ?_, ?_⟩
          · show findNode (g.nodes.map f) src = some (f ns)
            rw [findNode_map hfid, hs]
            rfl
          · rw [hfout, if_pos (findNode_eq_some hs).2]
            simp
      · intro p hp
        rcases List.mem_append.mp hp with hp | hp
        · obtain ⟨m, h1, h2⟩ := h.dstAdj p hp
          refine ⟨f m, ?_, ?_⟩
          · show findNode (g.nodes.map f) p.2.dst = some (f m)
            rw [findNode_map hfid, h1]
            rfl
          · rw [hfin]
            by_cases hmd : m.id = dst
            · rw [if_pos hmd]
              exact List.mem_append_left _ h2
            · rw [if_neg hmd]
              exact h2
        · simp at hp
          rw [hp]
          refine ⟨f nd, ?_, ?_⟩
          · show findNode (g.nodes.map f) dst = some (f nd)
            rw [findNode_map hfid, hd]
            rfl
          · rw [hfin, if_pos (findNode_eq_some hd).2]
            simp
      · rw [List.map_append]
        refine List.nodup_append.mpr ⟨h.edgesNodup, List.nodup_singleton _, ?_⟩
        intro a ha hb
        simp at hb
        subst hb
        obtain ⟨p, hp, hpa⟩ := List.mem_map.mp ha
        have hlt := h.edgeBound p hp
        rw [hpa] at hlt
        exact lt_irrefl _ hlt

theorem remove_edge_err {g : Graph} {eid : Nat} {err : GraphError}
    (h : remove_edge g eid = .error err) : findEdge g.edges eid = none := by
  cases he : findEdge g.edges eid with
  | none => rfl
  | some e => simp [remove_edge, he] at h

theorem remove_edge_ok_elim {g : Graph} {eid : Nat} {g' : Graph}
    {steps : List Step} (hok : remove_edge g eid = .ok (g', steps)) :
    ∃ e, findEdge g.edges eid = some e ∧
      g' = { g with nodes := g.nodes.map (removeAdj eid),
                    edges := g.edges.filter (fun p => p.1 ≠ eid) } ∧
      steps =
        (fanOutSteps g e.src (.on_out_node_removed_edge e.src e.dst eid) ++
         fanOutSteps g e.dst (.on_in_node_removed_edge e.dst e.src eid)) ++
        (fanOutSteps g' e.src (.on_out_node_removed_final e.src) ++
         fanOutSteps g' e.dst (.on_in_node_removed_final e.dst)) := by
  cases he : findEdge g.edges eid with
  | none => simp [remove_edge, he] at hok
  | some e =>
    simp only [remove_edge, he, Except.ok.injEq, Prod.mk.injEq] at hok
    obtain ⟨h1, h2⟩ := hok
    subst h1
    exact ⟨e, rfl, rfl, h2.symm⟩

theorem wf_remove_edge {g : Graph} {eid : Nat} {g' : Graph} {steps : List Step}
    (h : WF g) (hok : remove_edge g eid = .ok (g', steps)) : WF g' := by
  obtain ⟨e, he, hg, _⟩ := remove_edge_ok_elim hok
  subst hg
  constructor
  · intro p hp
    exact h.edgeBound p (List.mem_filter.mp hp).1
  · intro n hn k hk
    obtain ⟨m, hm, hfm⟩ := List.mem_map.mp hn
    subst hfm
    have hk2 := List.mem_filter.mp hk
    obtain ⟨e2, he1, he2⟩ := h.outSym m hm k hk2.1
    have hkne : k ≠ eid := by simpa using hk2.2
    refine ⟨e2, ?_, he2⟩
    show findEdge (g.edges.filter (fun p => p.1 ≠ eid)) k = some e2
    rw [findEdge_filter_ne hkne]
    exact he1
  · intro n hn k hk
    obtain ⟨m, hm, hfm⟩ := List.mem_map.mp hn
    subst hfm
    have hk2 := List.mem_filter.mp hk
    obtain ⟨e2, he1, he2⟩ := h.inSym m hm k hk2.1
    have hkne : k ≠ eid := by simpa using hk2.2
    refine ⟨e2, ?_, he2⟩
    show findEdge (g.edges.filter (fun p => p.1 ≠ eid)) k = some e2
    rw [findEdge_filter_ne hkne]
    exact he1
  · intro p hp
    have hp2 := List.mem_filter.mp hp
    obtain ⟨m, h1, h2⟩ := h.srcAdj p hp2.1
    have hpne : p.1 ≠ eid := by simpa using hp2.2
    refine ⟨removeAdj eid m, ?_, ?_⟩
    · show findNode (g.nodes.map (removeAdj eid)) p.2.src = some (removeAdj eid m)
      rw [findNode_map (f := removeAdj eid) (fun n => rfl), h1]
      rfl
    · show p.1 ∈ (removeAdj eid m).outEdges
      exact List.mem_filter.mpr ⟨h2, by simpa using hpne⟩
  · intro p hp
    have hp2 := List.mem_filter.mp hp
    obtain ⟨m, h1, h2⟩ := h.dstAdj p hp2.1
    have hpne : p.1 ≠ eid := by simpa using hp2.2
    refine ⟨removeAdj eid m, ?_, ?_⟩
    · show findNode (g.nodes.map (removeAdj eid)) p.2.dst = some (removeAdj eid m)
      rw [findNode_map (f := removeAdj eid) (fun n => rfl), h1]
      rfl
    · show p.1 ∈ (removeAdj eid m).inEdges
      exact List.mem_filter.mpr ⟨h2, by simpa using hpne⟩
  · exact List.Nodup.sublist ((List.filter_sublist _).map _) h.edgesNodup

theorem wf_remove_edges :
    ∀ (eids : List Nat) (g : Graph), WF g → WF (remove_edges g eids).1 := by
  intro eids
  induction eids with
  | nil => intro g h; exact h
  | cons eid rest ih =>
    intro g h
    cases hre : remove_edge g eid with
    | ok r =>
      obtain ⟨g1, s⟩ := r
      simp only [remove_edges, hre]
      exact ih g1 (wf_remove_edge h hre)
    | error err =>
      simp only [remove_edges, hre]
      exact ih g h

theorem remove_edges_obs :
    ∀ (eids : List Nat) (g : Graph), (remove_edges g eids).1.obs = g.obs := by
  intro eids
  induction eids with
  | nil => intro g; rfl
  | cons eid rest ih =>
    intro g
    cases hre : remove_edge g eid with
    | ok r =>
      obtain ⟨g1, s⟩ := r
      simp only [remove_edges, hre]
      rw [ih g1]
      obtain ⟨e, he, hg, _⟩ := remove_edge_ok_elim hre
      rw [hg]
    | error err =>
      simp only [remove_edges, hre]
      exact ih g

theorem remove_edges_edges_sub :
    ∀ (eids : List Nat) (g : Graph) (p : Nat × Edge),
      p ∈ (remove_edges g eids).1.edges → p ∈ g.edges ∧ p.1 ∉ eids := by
  intro eids
  induction eids with
  | nil => intro g p hp; exact ⟨hp, List.not_mem_nil _⟩
  | cons eid rest ih =>
    intro g p hp
    cases hre : remove_edge g eid with
    | ok r =>
      obtain ⟨g1, s⟩ := r
      simp only [remove_edges, hre] at hp
      obtain ⟨hp1, hp2⟩ := ih g1 p hp
      obtain ⟨e, he, hg, _⟩ := remove_edge_ok_elim hre
      rw [hg] at hp1
      have hp3 := List.mem_filter.mp hp1
      refine ⟨hp3.1, fun hmem => ?_⟩
      rcases List.mem_cons.mp hmem with hmem | hmem
      · exact absurd hmem (by simpa using hp3.2)
      · exact hp2 hmem
    | error err =>
      simp only [remove_edges, hre] at hp
      obtain ⟨hp1, hp2⟩ := ih g p hp
      have hne : p.1 ≠ eid := (findEdge_none_iff.mp (remove_edge_err hre)) p hp1
      refine ⟨hp1, fun hmem => ?_⟩
      rcases List.mem_cons.mp hmem with hmem | hmem
      · exact hne hmem
      · exact hp2 hmem

theorem wf_remove_node {g : Graph} {nid : Nat} {g' : Graph} {steps : List Step}
    (h : WF g) (hok : remove_node g nid = .ok (g', steps)) : WF g' := by
  cases hn : findNode g.nodes nid with
  | none => simp [remove_node, hn] at hok
  | some n0 =>
    simp only [remove_node, hn, Except.ok.injEq, Prod.mk.injEq] at hok
    obtain ⟨h1, _h2⟩ := hok
    subst h1
    have hwf1 : WF (remove_edges g (touchingEdges g nid)).1 :=
      wf_remove_edges _ g h
    have hwf2 : WF { (remove_edges g (touchingEdges g nid)).1 with
        nodes := (remove_edges g (touchingEdges g nid)).1.nodes.map
          (fun n => if n.id = nid then { n with group := none } else n) } := by
      refine wf_map_nodes ?_ ?_ ?_ hwf1 <;>
        intro m <;> by_cases hm : m.id = nid <;> simp [hm]
    constructor
    · exact hwf2.edgeBound
    · intro n hn2 k hk
      exact hwf2.outSym n (List.mem_filter.mp hn2).1 k hk
    · intro n hn2 k hk
      exact hwf2.inSym n (List.mem_filter.mp hn2).1 k hk
    · intro p hp
      obtain ⟨hp1, hp2⟩ := remove_edges_edges_sub _ g p hp
      have hsrc : p.2.src ≠ nid := by
        intro hc
        apply hp2
        refine List.mem_map.mpr ⟨p, List.mem_filter.mpr ⟨hp1, ?_⟩, rfl⟩
        simp [hc]
      obtain ⟨m, hm1, hm2⟩ := hwf2.srcAdj p hp
      refine ⟨m, ?_, hm2⟩
      show findNode (List.filter (fun n => n.id ≠ nid) _) p.2.src = some m
      rw [findNode_filter_ne hsrc]
      exact hm1
    · intro p hp
      obtain ⟨hp1, hp2⟩ := remove_edges_edges_sub _ g p hp
      have hdst : p.2.dst ≠ nid := by
        intro hc
        apply hp2
        refine List.mem_map.mpr ⟨p, List.mem_filter.mpr ⟨hp1, ?_⟩, rfl⟩
        simp [hc]
      obtain ⟨m, hm1, hm2⟩ := hwf2.dstAdj p hp
      refine ⟨m, ?_, hm2⟩
      show findNode (List.filter (fun n => n.id ≠ nid) _) p.2.dst = some m
      rw [findNode_filter_ne hdst]
      exact hm1
    · exact hwf2.edgesNodup

theorem wf_insert_node_into_group {g : Graph} (nid gid : Nat) (h : WF g) :
    WF (insert_node_into_group g nid gid) := by
  refine wf_map_nodes ?_ ?_ ?_ h <;>
    intro m <;> by_cases hm : m.id = nid <;> simp [hm]

theorem wf_remove_node_from_group {g : Graph} (nid : Nat) (h : WF g) :
    WF (remove_node_from_group g nid) := by
  refine wf_map_nodes ?_ ?_ ?_ h <;>
    intro m <;> by_cases hm : m.id = nid <;> simp [hm]

theorem wf_attach_observer {g : Graph} (nid oid : Nat) (h : WF g) :
    WF (attach_observer g nid oid) := by
  cases hn : findNode g.nodes nid with
  | none =>
    simp only [attach_observer, hn]
    exact h
  | some n =>
    simp only [attach_observer, hn]
    by_cases hmem : oid ∈ n.observers
    · rw [if_pos hmem]
      exact h
    · rw [if_neg hmem]
      refine wf_set_obs _ (wf_map_nodes ?_ ?_ ?_ h) <;>
        intro m <;> by_cases hm : m.id = nid <;> simp [hm]

theorem wf_detach_observer {g : Graph} (nid oid : Nat) (h : WF g) :
    WF (detach_observer g nid oid) := by
  refine wf_map_nodes ?_ ?_ ?_ h <;>
    intro m <;> by_cases hm : m.id = nid <;> simp [hm]

theorem wf_enable_observer {g : Graph} (oid : Nat) (h : WF g) :
    WF (enable_observer g oid) :=
  wf_set_obs _ h

theorem wf_disable_observer {g : Graph} (oid : Nat) (h : WF g) :
    WF (disable_observer g oid) :=
  wf_set_obs _ h

theorem wf_applyOp {g : Graph} (h : WF g) (op : Op) : WF (applyOp g op).1 := by
  cases op with
  | insertNode => exact wf_insert_node h
  | removeNode nid =>
    cases hr : remove_node g nid with
    | ok r =>
      obtain ⟨g1, s⟩ := r
      simp only [applyOp, hr]
      exact wf_remove_node h hr
    | error err =>
      simp only [applyOp, hr]
      exact h
  | insertEdge src dst =>
    cases hr : insert_edge g src dst with
    | ok r =>
      obtain ⟨g1, r2⟩ := r
      obtain ⟨eid, s⟩ := r2
      simp only [applyOp, hr]
      exact wf_insert_edge h hr
    | error err =>
      simp only [applyOp, hr]
      exact h
  | removeEdge eid =>
    cases hr : remove_edge g eid with
    | ok r =>
      obtain ⟨g1, s⟩ := r
      simp only [applyOp, hr]
      exact wf_remove_edge h hr
    | error err =>
      simp only [applyOp, hr]
      exact h
  | insertNodeIntoGroup nid gid => exact wf_insert_node_into_group nid gid h
  | removeNodeFromGroup nid => exact wf_remove_node_from_group nid h
  | attachObserver nid oid => exact wf_attach_observer nid oid h
  | detachObserver nid oid => exact wf_detach_observer nid oid h
  | enableObserver oid => exact wf_enable_observer oid h
  | disableObserver oid => exact wf_disable_observer oid h

theorem wf_empty : WF emptyGraph := by
  constructor <;> simp [emptyGraph]

theorem wf_runOps : ∀ (ops : List Op) (g : Graph), WF g → WF (runOps g ops) := by
  intro ops
  induction ops with
  | nil => intro g h; exact h
  | cons op rest ih =>
    intro g h
    exact ih (applyOp g op).1 (wf_applyOp h op)

/-- Claim C6 counterexample: `gtpo::node_observer` does not have exactly
five callback hooks — the source declares six virtual callbacks
(`on_in_node_inserted`, two `on_in_node_removed` overloads,
`on_out_node_inserted`, two `on_out_node_removed` overloads). -/
theorem node_observer_hook_count_ne_five :
    (nodeObserverHooks.length = 5) = False :=
  eq_false (by decide)

/-- Claim C6 (amended): the Node-Observer interface provides exactly six
callback hooks: in-edge-inserted, in-edge-removed with edge context,
in-edge-removed final without edge context, and the symmetric triple for
out-edges; the list of hooks is duplicate-free and complete, and every
notification event is delivered to one of these hooks. -/
theorem node_observer_hook_count_six :
    nodeObserverHooks.length = 6 ∧ nodeObserverHooks.Nodup ∧
    (∀ h : NodeObserverHook, h ∈ nodeObserverHooks) ∧
    (∀ h : NodeObserverHook, ∃ ev : Event, eventHook ev = h) := by
  refine ⟨rfl, by decide, ?_, ?_⟩
  · intro h
    cases h <;> simp [nodeObserverHooks]
  · intro h
    cases h with
    | on_in_node_inserted => exact ⟨.on_in_node_inserted 0 0 0, rfl⟩
    | on_in_node_removed_edge => exact ⟨.on_in_node_removed_edge 0 0 0, rfl⟩
    | on_in_node_removed_final => exact ⟨.on_in_node_removed_final 0, rfl⟩
    | on_out_node_inserted => exact ⟨.on_out_node_inserted 0 0 0, rfl⟩
    | on_out_node_removed_edge => exact ⟨.on_out_node_removed_edge 0 0 0, rfl⟩
    | on_out_node_removed_final => exact ⟨.on_out_node_removed_final 0, rfl⟩

/-- Claim C8: enable() and disable() are idempotent, enable() makes
isEnabled() return true and disable() makes it return false, regardless of
the previous enabled state. -/
theorem observer_enable_disable_idempotent (o : observer) :
    o.enable.enable = o.enable ∧ o.disable.disable = o.disable ∧
    o.enable.isEnabled = true ∧ o.disable.isEnabled = false ∧
    o.disable.enable = o.enable ∧ o.enable.disable = o.disable := by
  refine ⟨rfl, rfl, rfl, rfl, rfl, rfl⟩

/-- Claim C9: the default body of every `node_observer` callback hook is a
no-op: a node observer built with the default hooks leaves its own state
and every argument (target node, other endpoint node, edge) unchanged, for
each of the six hooks. -/
theorem node_observer_default_hooks_noop (σ : Type) (b : observer) (s : σ)
    (t w : Node) (e : Edge) :
    let no : node_observer σ := { base := b, st := s }
    no.on_in_node_inserted s t w e = (s, t, w, e) ∧
    no.on_in_node_removed s t w e = (s, t, w, e) ∧
    no.on_in_node_removed_final s t = (s, t) ∧
    no.on_out_node_inserted s t w e = (s, t, w, e) ∧
    no.on_out_node_removed s t w e = (s, t, w, e) ∧
    no.on_out_node_removed_final s t = (s, t) := by
  exact ⟨rfl, rfl, rfl, rfl, rfl, rfl⟩

/-- Claim C10: a default-constructed observer has a null target and an
empty name, and for every target t, after set_target(t) the target reads
back as t while the enabled flag and the name are unchanged. -/
theorem observer_default_accessors :
    observer.default.get_target = none ∧
    observer.default.getName = "" ∧
    ∀ (o : observer) (t : Option Nat),
      (o.set_target t).get_target = t ∧
      (o.set_target t).isEnabled = o.isEnabled ∧
      (o.set_target t).getName = o.getName := by
  exact ⟨rfl, rfl, fun o t => ⟨rfl, rfl, rfl⟩⟩

end Gtpo

namespace Gtpo

theorem fanOutSteps_mem {g : Graph} {nid : Nat} {ev : Event} :
    ∀ s ∈ fanOutSteps g nid ev,
      s.event = ev ∧ s.pre = g ∧ observerEnabled g s.observerId = true := by
  intro s hs
  cases hn : findNode g.nodes nid with
  | none => simp [fanOutSteps, hn] at hs
  | some n =>
    simp only [fanOutSteps, hn] at hs
    obtain ⟨oid, hmem, hsd⟩ := List.mem_map.mp hs
    subst hsd
    refine ⟨rfl, rfl, ?_⟩
    simpa using (List.mem_filter.mp hmem).2

theorem fanOutSteps_map_observerId {g : Graph} {nid : Nat} {ev : Event}
    {n : Node} (h : findNode g.nodes nid = some n) :
    (fanOutSteps g nid ev).map Step.observerId =
      n.observers.filter (fun oid => observerEnabled g oid) := by
  have haux : ∀ l : List Nat,
      (l.map (fun oid => ({ pre := g, observerId := oid, event := ev } : Step))).map
        Step.observerId = l := by
    intro l
    induction l with
    | nil => rfl
    | cons a t ih =>
      simp only [List.map_cons]
      rw [ih]
  simp only [fanOutSteps, h]
  exact haux _

theorem observerEnabled_obs_eq {g g' : Graph} (h : g'.obs = g.obs)
    (oid : Nat) : observerEnabled g' oid = observerEnabled g oid := by
  unfold observerEnabled
  rw [h]

theorem steps_ordering {A B : List Step} {e1 e2 : Event}
    (hA : ∀ s ∈ A, s.event = e1) (hB : ∀ s ∈ B, s.event = e2)
    (hne : e1 ≠ e2) :
    ∀ i j si sj, (A ++ B).get? i = some si → (A ++ B).get? j = some sj →
      si.event = e1 → sj.event = e2 → i < j := by
  intro i j si sj hi hj hsi hsj
  have hiA : i < A.length := by
    by_contra hcon
    push_neg at hcon
    rw [List.get?_append_right hcon] at hi
    have hmem : si ∈ B := List.get?_mem hi
    exact hne (hsi.symm.trans (hB si hmem))
  have hjB : ¬ j < A.length := by
    intro hcon
    rw [List.get?_append hcon] at hj
    have hmem : sj ∈ A := List.get?_mem hj
    exact hne ((hA sj hmem).symm.trans hsj)
  exact lt_of_lt_of_le hiA (le_of_not_lt hjB)

theorem insert_edge_steps_enabled {g : Graph} {src dst : Nat} {g' : Graph}
    {eid : Nat} {steps : List Step}
    (hok : insert_edge g src dst = .ok (g', eid, steps)) :
    ∀ s ∈ steps, observerEnabled g s.observerId = true := by
  cases hs : findNode g.nodes src with
  | none => simp [insert_edge, hs] at hok
  | some ns =>
    cases hd : findNode g.nodes dst with
    | none => simp [insert_edge, hs, hd] at hok
    | some nd =>
      simp only [insert_edge, hs, hd, Except.ok.injEq, Prod.mk.injEq] at hok
      obtain ⟨h1, _h2, h3⟩ := hok
      intro s hmem
      rw [← h3] at hmem
      rcases List.mem_append.mp hmem with hmem | hmem
      · exact (fanOutSteps_mem s hmem).2.2
      · exact (fanOutSteps_mem s hmem).2.2

theorem remove_edge_steps_enabled {g : Graph} {eid : Nat} {g' : Graph}
    {steps : List Step} (hok : remove_edge g eid = .ok (g', steps)) :
    ∀ s ∈ steps, observerEnabled g s.observerId = true := by
  obtain ⟨e, he, hg, hsteps⟩ := remove_edge_ok_elim hok
  subst hsteps
  subst hg
  intro s hmem
  rcases List.mem_append.mp hmem with hmem | hmem
  · rcases List.mem_append.mp hmem with hmem | hmem
    · exact (fanOutSteps_mem s hmem).2.2
    · exact (fanOutSteps_mem s hmem).2.2
  · rcases List.mem_append.mp hmem with hmem | hmem
    · exact (fanOutSteps_mem s hmem).2.2
    · exact (fanOutSteps_mem s hmem).2.2

theorem remove_edges_steps_enabled :
    ∀ (eids : List Nat) (g : Graph),
      ∀ s ∈ (remove_edges g eids).2, observerEnabled g s.observerId = true := by
  intro eids
  induction eids with
  | nil => intro g s hs; simp [remove_edges] at hs
  | cons eid rest ih =>
    intro g s hs
    cases hre : remove_edge g eid with
    | ok r =>
      obtain ⟨g1, st⟩ := r
      simp only [remove_edges, hre] at hs
      rcases List.mem_append.mp hs with hs | hs
      · exact remove_edge_steps_enabled hre s hs
      · have := ih g1 s hs
        obtain ⟨e, he, hg, _⟩ := remove_edge_ok_elim hre
        have hobs : g1.obs = g.obs := by rw [hg]
        rwa [observerEnabled_obs_eq hobs s.observerId] at this
    | error err =>
      simp only [remove_edges, hre] at hs
      exact ih g s hs

theorem remove_node_steps_enabled {g : Graph} {nid : Nat} {g' : Graph}
    {steps : List Step} (hok : remove_node g nid = .ok (g', steps)) :
    ∀ s ∈ steps, observerEnabled g s.observerId = true := by
  cases hn : findNode g.nodes nid with
  | none => simp [remove_node, hn] at hok
  | some n0 =>
    simp only [remove_node, hn, Except.ok.injEq, Prod.mk.injEq] at hok
    obtain ⟨_h1, h2⟩ := hok
    intro s hs
    rw [← h2] at hs
    exact remove_edges_steps_enabled _ g s hs

theorem applyOp_steps_enabled {g : Graph} (op : Op) :
    ∀ s ∈ (applyOp g op).2, observerEnabled g s.observerId = true := by
  cases op with
  | insertNode => intro s hs; simp [applyOp] at hs
  | removeNode nid =>
    intro s hs
    cases hr : remove_node g nid with
    | ok r =>
      obtain ⟨g1, st⟩ := r
      simp only [applyOp, hr] at hs
      exact remove_node_steps_enabled hr s hs
    | error err => simp [applyOp, hr] at hs
  | insertEdge src dst =>
    intro s hs
    cases hr : insert_edge g src dst with
    | ok r =>
      obtain ⟨g1, r2⟩ := r
      obtain ⟨eid, st⟩ := r2
      simp only [applyOp, hr] at hs
      exact insert_edge_steps_enabled hr s hs
    | error err => simp [applyOp, hr] at hs
  | removeEdge eid =>
    intro s hs
    cases hr : remove_edge g eid with
    | ok r =>
      obtain ⟨g1, st⟩ := r
      simp only [applyOp, hr] at hs
      exact remove_edge_steps_enabled hr s hs
    | error err => simp [applyOp, hr] at hs
  | insertNodeIntoGroup nid gid => intro s hs; simp [applyOp] at hs
  | removeNodeFromGroup nid => intro s hs; simp [applyOp] at hs
  | attachObserver nid oid => intro s hs; simp [applyOp] at hs
  | detachObserver nid oid => intro s hs; simp [applyOp] at hs
  | enableObserver oid => intro s hs; simp [applyOp] at hs
  | disableObserver oid => intro s hs; simp [applyOp] at hs

end Gtpo

namespace Gtpo

/-- Claim C1: adjacency symmetry invariant — after every sequence of
mutation operations (insert_node, remove_node, insert_edge, remove_edge,
group membership and observer operations) starting from the empty
container, every edge in a node's out-list has that node as source and
every edge in a node's in-list has that node as destination. -/
theorem graph_adjacency_symmetry (ops : List Op) :
    adjacencySymmetric (runOps emptyGraph ops) := by
  have h := wf_runOps ops emptyGraph wf_empty
  intro n hn
  exact ⟨h.outSym n hn, h.inSym n hn⟩

/-- Claim C2: for member nodes src and dst, insert_edge(src, dst)
succeeds, appends the new edge to src's out-list and dst's in-list, and
fires on_out_node_inserted on src's observers strictly before
on_in_node_inserted on dst's observers; if either endpoint is not a
member, insert_edge fails with InvalidEndpointError. -/
theorem insert_edge_spec (g : Graph) (src dst : Nat) :
    (∀ ns nd : Node, findNode g.nodes src = some ns →
        findNode g.nodes dst = some nd →
      ∃ g' eid steps, insert_edge g src dst = .ok (g', eid, steps) ∧
        (∃ ns2, findNode g'.nodes src = some ns2 ∧
          ns2.outEdges = ns.outEdges ++ [eid]) ∧
        (∃ nd2, findNode g'.nodes dst = some nd2 ∧
          nd2.inEdges = nd.inEdges ++ [eid]) ∧
        (∀ i j si sj, steps.get? i = some si → steps.get? j = some sj →
          si.event = .on_out_node_inserted src dst eid →
          sj.event = .on_in_node_inserted dst src eid → i < j)) ∧
    ((findNode g.nodes src = none ∨ findNode g.nodes dst = none) →
      insert_edge g src dst = .error .invalidEndpointError) := by
  constructor
  · intro ns nd hs hd
    cases hok : insert_edge g src dst with
    | error err => simp [insert_edge, hs, hd] at hok
    | ok r =>
      obtain ⟨g', r2⟩ := r
      obtain ⟨eid, steps⟩ := r2
      refine ⟨g', eid, steps, rfl, ?_⟩
      simp only [insert_edge, hs, hd, Except.ok.injEq, Prod.mk.injEq] at hok
      obtain ⟨h1, h2, h3⟩ := hok
      subst h1
      subst h2
      subst h3
      have hfid : ∀ n : Node,
          (addIn g.nextEdgeId dst (addOut g.nextEdgeId src n)).id = n.id := by
        intro n
        rw [addIn_id, addOut_id]
      have hfout : ∀ n : Node,
          (addIn g.nextEdgeId dst (addOut g.nextEdgeId src n)).outEdges =
            if n.id = src then n.outEdges ++ [g.nextEdgeId] else n.outEdges := by
        intro n
        rw [addIn_outEdges, addOut_outEdges]
      have hfin : ∀ n : Node,
          (addIn g.nextEdgeId dst (addOut g.nextEdgeId src n)).inEdges =
            if n.id = dst then n.inEdges ++ [g.nextEdgeId] else n.inEdges := by
        intro n
        rw [addIn_inEdges, addOut_id, addOut_inEdges]
      refine ⟨⟨addIn g.nextEdgeId dst (addOut g.nextEdgeId src ns), ?_, ?_⟩,
        ⟨addIn g.nextEdgeId dst (addOut g.nextEdgeId src nd), ?_, ?_⟩, ?_⟩
      · show findNode
          (g.nodes.map fun n => addIn g.nextEdgeId dst (addOut g.nextEdgeId src n))
          src = _
        rw [findNode_map hfid, hs]
        rfl
      · rw [hfout, if_pos (findNode_eq_some hs).2]
      · show findNode
          (g.nodes.map fun n => addIn g.nextEdgeId dst (addOut g.nextEdgeId src n))
          dst = _
        rw [findNode_map hfid, hd]
        rfl
      · rw [hfin, if_pos (findNode_eq_some hd).2]
      · exact steps_ordering (fun s hs2 => (fanOutSteps_mem s hs2).1)
          (fun s hs2 => (fanOutSteps_mem s hs2).1)
          (fun hcon => Event.noConfusion hcon)
  · intro hor
    rcases hor with hor | hor
    · simp [insert_edge, hor]
    · cases hs2 : findNode g.nodes src <;> simp [insert_edge, hs2, hor]

/-- Claim C2 witness: in the two-node example container, insert_edge with
a non-member endpoint fails with InvalidEndpointError and insert_edge
between the two members succeeds. -/
theorem insert_edge_spec_witness :
    insert_edge exG2 5 1 = .error .invalidEndpointError ∧
    ∃ g' eid steps, insert_edge exG2 0 1 = .ok (g', eid, steps) := by
  constructor
  · exact (insert_edge_spec exG2 5 1).2 (Or.inl rfl)
  · obtain ⟨g', eid, steps, hok, _⟩ :=
      (insert_edge_spec exG2 0 1).1
        { id := 0, inEdges := [], outEdges := [], group := none, observers := [] }
        { id := 1, inEdges := [], outEdges := [], group := none, observers := [] }
        rfl rfl
    exact ⟨g', eid, steps, hok⟩

end Gtpo

namespace Gtpo

/-- Claim C3: for a member edge e with source src and destination dst,
remove_edge(e) fires the edge-context callbacks on_out_node_removed(src,
dst, e) then on_in_node_removed(dst, src, e) while e is still present in
both adjacency lists (the recorded pre-state of those steps is the
unmodified container, in which e is registered in src's out-list and dst's
in-list), then detaches e from both adjacency lists, then fires the
no-context callbacks on_out_node_removed(src) and on_in_node_removed(dst)
(their recorded pre-state is the detached container); if e is not a
member, remove_edge fails with NotFoundError. -/
theorem remove_edge_spec (g : Graph) (eid : Nat) (hwf : WF g) :
    (findEdge g.edges eid = none →
      remove_edge g eid = .error .notFoundError) ∧
    (∀ e : Edge, findEdge g.edges eid = some e →
      ∃ g' a b c d, remove_edge g eid = .ok (g', (a ++ b) ++ (c ++ d)) ∧
        (∃ ns, findNode g.nodes e.src = some ns ∧ eid ∈ ns.outEdges) ∧
        (∃ nd, findNode g.nodes e.dst = some nd ∧ eid ∈ nd.inEdges) ∧
        (∀ s ∈ a, s.event = .on_out_node_removed_edge e.src e.dst eid ∧
          s.pre = g) ∧
        (∀ s ∈ b, s.event = .on_in_node_removed_edge e.dst e.src eid ∧
          s.pre = g) ∧
        (∀ s ∈ c, s.event = .on_out_node_removed_final e.src ∧ s.pre = g') ∧
        (∀ s ∈ d, s.event = .on_in_node_removed_final e.dst ∧ s.pre = g') ∧
        findEdge g'.edges eid = none ∧
        (∀ m ∈ g'.nodes, eid ∉ m.inEdges ∧ eid ∉ m.outEdges)) := by
  constructor
  · intro h
    simp [remove_edge, h]
  · intro e he
    cases hok : remove_edge g eid with
    | error err =>
      have h2 := remove_edge_err hok
      rw [he] at h2
      cases h2
    | ok r =>
      obtain ⟨g', steps⟩ := r
      obtain ⟨e2, he2, hg, hsteps⟩ := remove_edge_ok_elim hok
      rw [he] at he2
      injection he2 with he2
      subst he2
      refine ⟨g',
        fanOutSteps g e.src (.on_out_node_removed_edge e.src e.dst eid),
        fanOutSteps g e.dst (.on_in_node_removed_edge e.dst e.src eid),
        fanOutSteps g' e.src (.on_out_node_removed_final e.src),
        fanOutSteps g' e.dst (.on_in_node_removed_final e.dst),
        ?_, ?_, ?_, ?_, ?_, ?_, ?_, ?_, ?_⟩
      · rw [hsteps]
      · exact hwf.srcAdj (eid, e) (findEdge_eq_some he)
      · exact hwf.dstAdj (eid, e) (findEdge_eq_some he)
      · intro s hs2
        exact ⟨(fanOutSteps_mem s hs2).1, (fanOutSteps_mem s hs2).2.1⟩
      · intro s hs2
        exact ⟨(fanOutSteps_mem s hs2).1, (fanOutSteps_mem s hs2).2.1⟩
      · intro s hs2
        exact ⟨(fanOutSteps_mem s hs2).1, (fanOutSteps_mem s hs2).2.1⟩
      · intro s hs2
        exact ⟨(fanOutSteps_mem s hs2).1, (fanOutSteps_mem s hs2).2.1⟩
      · rw [hg]
        exact findEdge_filter_self
      · intro m hm
        rw [hg] at hm
        obtain ⟨m0, hm0, hm1⟩ := List.mem_map.mp hm
        subst hm1
        constructor <;> simp [removeAdj]

/-- Claim C3 witness: removing the edge of the two-node example container
succeeds with the four-segment notification trace and afterwards the edge
is no longer a member. -/
theorem remove_edge_spec_witness :
    ∃ g' a b c d, remove_edge exG3 0 = .ok (g', (a ++ b) ++ (c ++ d)) ∧
      findEdge g'.edges 0 = none := by
  obtain ⟨g', a, b, c, d, hok, _, _, _, _, _, _, hnone, _⟩ :=
    (remove_edge_spec exG3 0 (wf_runOps _ emptyGraph wf_empty)).2
      { src := 0, dst := 1 } rfl
  exact ⟨g', a, b, c, d, hok, hnone⟩

end Gtpo


namespace Gtpo

theorem findEdge_mem_key {ps : List (Nat × Edge)} {p : Nat × Edge}
    (h : p ∈ ps) : ∃ e, findEdge ps p.1 = some e := by
  induction ps with
  | nil => cases h
  | cons q ts ih =>
    by_cases hk : q.1 = p.1
    · exact ⟨q.2, by rw [findEdge, if_pos hk]⟩
    · rcases List.mem_cons.mp h with h | h
      · rw [h] at hk
        exact absurd rfl hk
      · obtain ⟨e, he⟩ := ih h
        exact ⟨e, by rw [findEdge, if_neg hk]; exact he⟩

theorem touchingEdges_nodup {g : Graph} (h : WF g) (nid : Nat) :
    (touchingEdges g nid).Nodup :=
  List.Nodup.sublist ((List.filter_sublist _).map _) h.edgesNodup

theorem touchingEdges_present {g : Graph} (nid : Nat) :
    ∀ eid ∈ touchingEdges g nid, ∃ e, findEdge g.edges eid = some e := by
  intro eid hmem
  obtain ⟨p, hp, hpe⟩ := List.mem_map.mp hmem
  rw [← hpe]
  exact findEdge_mem_key (List.mem_filter.mp hp).1

theorem remove_edge_node_mem {g : Graph} {eid : Nat} {g' : Graph}
    {steps : List Step} {nid : Nat} {m : Node}
    (hok : remove_edge g eid = .ok (g', steps))
    (hm : findNode g.nodes nid = some m) :
    findNode g'.nodes nid = some (removeAdj eid m) := by
  obtain ⟨e, he, hg, _⟩ := remove_edge_ok_elim hok
  subst hg
  show findNode (g.nodes.map (removeAdj eid)) nid = _
  rw [findNode_map (f := removeAdj eid) (fun n => rfl), hm]
  rfl

theorem remove_edge_steps_node_present {g : Graph} {eid : Nat} {g' : Graph}
    {steps : List Step} {nid : Nat} {m : Node}
    (hok : remove_edge g eid = .ok (g', steps))
    (hm : findNode g.nodes nid = some m) :
    ∀ s ∈ steps, ∃ m2, findNode s.pre.nodes nid = some m2 := by
  obtain ⟨e, he, hg, hsteps⟩ := remove_edge_ok_elim hok
  subst hsteps
  subst hg
  intro s hs
  rcases List.mem_append.mp hs with hs | hs
  · rcases List.mem_append.mp hs with hs | hs
    · rw [(fanOutSteps_mem s hs).2.1]
      exact ⟨m, hm⟩
    · rw [(fanOutSteps_mem s hs).2.1]
      exact ⟨m, hm⟩
  · rcases List.mem_append.mp hs with hs | hs
    · rw [(fanOutSteps_mem s hs).2.1]
      refine ⟨removeAdj eid m, ?_⟩
      show findNode (g.nodes.map (removeAdj eid)) nid = _
      rw [findNode_map (f := removeAdj eid) (fun n => rfl), hm]
      rfl
    · rw [(fanOutSteps_mem s hs).2.1]
      refine ⟨removeAdj eid m, ?_⟩
      show findNode (g.nodes.map (removeAdj eid)) nid = _
      rw [findNode_map (f := removeAdj eid) (fun n => rfl), hm]
      rfl

theorem remove_edges_steps_node_present :
    ∀ (eids : List Nat) (g : Graph) (nid : Nat) (m : Node),
      findNode g.nodes nid = some m →
      ∀ s ∈ (remove_edges g eids).2, ∃ m2, findNode s.pre.nodes nid = some m2 := by
  intro eids
  induction eids with
  | nil => intro g nid m hm s hs; simp [remove_edges] at hs
  | cons eid rest ih =>
    intro g nid m hm s hs
    cases hre : remove_edge g eid with
    | ok r =>
      obtain ⟨g1, seg⟩ := r
      simp only [remove_edges, hre] at hs
      rcases List.mem_append.mp hs with hs | hs
      · exact remove_edge_steps_node_present hre hm s hs
      · exact ih g1 nid _ (remove_edge_node_mem hre hm) s hs
    | error err =>
      simp only [remove_edges, hre] at hs
      exact ih g nid m hm s hs

theorem remove_edges_chain :
    ∀ (eids : List Nat) (g : Graph), eids.Nodup →
      (∀ eid ∈ eids, ∃ e, findEdge g.edges eid = some e) →
      removalChain g eids (remove_edges g eids).1 (remove_edges g eids).2 := by
  intro eids
  induction eids with
  | nil => intro g _ _; exact ⟨rfl, rfl⟩
  | cons eid rest ih =>
    intro g hnodup hpresent
    obtain ⟨e, he⟩ := hpresent eid (List.mem_cons_self _ _)
    cases hre : remove_edge g eid with
    | error err =>
      rw [remove_edge_err hre] at he
      cases he
    | ok r =>
      obtain ⟨g1, seg⟩ := r
      simp only [remove_edges, hre]
      refine ⟨g1, seg, (remove_edges g1 rest).2, hre, rfl, ?_⟩
      obtain ⟨e2, he2, hg1, _⟩ := remove_edge_ok_elim hre
      refine ih g1 (List.Nodup.of_cons hnodup) ?_
      intro eid2 hmem2
      have hne : eid2 ≠ eid := by
        intro hc
        rw [hc] at hmem2
        exact (List.nodup_cons.mp hnodup).1 hmem2
      obtain ⟨e3, he3⟩ := hpresent eid2 (List.mem_cons_of_mem _ hmem2)
      refine ⟨e3, ?_⟩
      rw [hg1]
      show findEdge (g.edges.filter (fun p => p.1 ≠ eid)) eid2 = some e3
      rw [findEdge_filter_ne hne]
      exact he3

/-- Claim C4: remove_node(n) fails with NotFoundError when n is not a
member and leaves the container unchanged; when n is a member it first
removes every edge touching n through remove_edge — the notification trace
is exactly the concatenation of the successful remove_edge traces of the
touching edges in order (removalChain), so each removal follows the full
edge-removal notification protocol — and every notification fires while n
is still a member (only then is n destroyed); the final container is the
cascade result with n detached from its group and then removed; afterwards
n is no longer a member, no remaining edge touches n, and remove_edge on
any of the removed edges fails with NotFoundError. -/
theorem remove_node_spec (g : Graph) (nid : Nat) (hwf : WF g) :
    (findNode g.nodes nid = none →
      remove_node g nid = .error .notFoundError ∧
      applyOp g (.removeNode nid) = (g, [])) ∧
    (∀ n : Node, findNode g.nodes nid = some n →
      ∃ g' gMid steps, remove_node g nid = .ok (g', steps) ∧
        removalChain g (touchingEdges g nid) gMid steps ∧
        (∀ s ∈ steps, ∃ m, findNode s.pre.nodes nid = some m) ∧
        g' = { gMid with
          nodes := (gMid.nodes.map
            (fun m => if m.id = nid then { m with group := none } else m)).filter
            (fun m => m.id ≠ nid) } ∧
        findNode g'.nodes nid = none ∧
        (∀ eid ∈ touchingEdges g nid,
          findEdge g'.edges eid = none ∧
          remove_edge g' eid = .error .notFoundError) ∧
        (∀ (k : Nat) (e : Edge), findEdge g'.edges k = some e →
          e.src ≠ nid ∧ e.dst ≠ nid)) := by
  constructor
  · intro h
    have herr : remove_node g nid = .error .notFoundError := by
      simp [remove_node, h]
    exact ⟨herr, by simp [applyOp, herr]⟩
  · intro n hn
    cases hok : remove_node g nid with
    | error err => simp [remove_node, hn] at hok
    | ok r =>
      obtain ⟨g', steps⟩ := r
      refine ⟨g', (remove_edges g (touchingEdges g nid)).1, steps, rfl,
        ?_, ?_, ?_, ?_, ?_, ?_⟩
      all_goals
        have hok2 := hok
        simp only [remove_node, hn, Except.ok.injEq, Prod.mk.injEq] at hok2
        obtain ⟨h1, h2⟩ := hok2
        subst h1
        subst h2
      · exact remove_edges_chain (touchingEdges g nid) g
          (touchingEdges_nodup hwf nid) (touchingEdges_present nid)
      · exact remove_edges_steps_node_present (touchingEdges g nid) g nid n hn
      · rfl
      · exact findNode_filter_self
      · intro eid hmem
        have hnone : findEdge
            (remove_edges g (touchingEdges g nid)).1.edges eid = none := by
          apply findEdge_none_iff.mpr
          intro p hp
          obtain ⟨hp1, hp2⟩ := remove_edges_edges_sub (touchingEdges g nid) g p hp
          intro hpe
          apply hp2
          rw [hpe]
          exact hmem
        refine ⟨hnone, ?_⟩
        simp [remove_edge, hnone]
      · intro k e hke
        have hp := findEdge_eq_some hke
        obtain ⟨hp1, hp2⟩ :=
          remove_edges_edges_sub (touchingEdges g nid) g (k, e) hp
        constructor
        · intro hc
          apply hp2
          refine List.mem_map.mpr ⟨(k, e), List.mem_filter.mpr ⟨hp1, ?_⟩, rfl⟩
          simp [hc]
        · intro hc
          apply hp2
          refine List.mem_map.mpr ⟨(k, e), List.mem_filter.mpr ⟨hp1, ?_⟩, rfl⟩
          simp [hc]

/-- Claim C4 witness: removing a non-member node id from the example
container fails with NotFoundError, and removing node 0 succeeds with a
cascading removal chain over its touching edges, after which a second
remove_edge on the removed edge fails with NotFoundError. -/
theorem remove_node_spec_witness :
    remove_node exG3 99 = .error .notFoundError ∧
    ∃ g' gMid steps, remove_node exG3 0 = .ok (g', steps) ∧
      removalChain exG3 (touchingEdges exG3 0) gMid steps ∧
      remove_edge g' 0 = .error .notFoundError := by
  constructor
  · exact ((remove_node_spec exG3 99 (wf_runOps _ emptyGraph wf_empty)).1 rfl).1
  · obtain ⟨g', gMid, steps, hok, hchain, _, _, _, htouch, _⟩ :=
      (remove_node_spec exG3 0 (wf_runOps _ emptyGraph wf_empty)).2
        { id := 0, inEdges := [], outEdges := [0], group := none,
          observers := [] } rfl
    exact ⟨g', gMid, steps, hok, hchain, (htouch 0 (by decide)).2⟩

end Gtpo

namespace Gtpo

/-- Claim C5: the observable-node fan-out delivers the event exactly to
the attached observers whose isEnabled() is true, in attachment order (the
delivered observer ids are the enabled-filtered attachment list); a
disabled observer receives no step of any mutation issued while it is
disabled; and re-enabling an observer emits no notification, so missed
events are not replayed. -/
theorem observable_node_fanout (g : Graph) (nid : Nat) (ev : Event)
    (n : Node) (h : findNode g.nodes nid = some n) :
    ((fanOutSteps g nid ev).map Step.observerId =
        n.observers.filter (fun oid => observerEnabled g oid) ∧
      ∀ s ∈ fanOutSteps g nid ev, s.event = ev) ∧
    (∀ (op : Op) (oid : Nat), observerEnabled g oid = false →
      ∀ s ∈ (applyOp g op).2, s.observerId ≠ oid) ∧
    (∀ oid : Nat, (applyOp g (.enableObserver oid)).2 = []) := by
  refine ⟨⟨fanOutSteps_map_observerId h,
    fun s hs => (fanOutSteps_mem s hs).1⟩, ?_, fun oid => rfl⟩
  intro op oid hdis s hs hc
  have hen := applyOp_steps_enabled op s hs
  rw [hc] at hen
  rw [hen] at hdis
  cases hdis

/-- Claim C5 witness: in the example container with observers 10 (enabled)
and 11 (disabled) attached to node 0, a fan-out delivers exactly to the
enabled-filtered attachment list. -/
theorem observable_node_fanout_witness :
    (fanOutSteps exG5 0 (.on_out_node_inserted 0 1 0)).map Step.observerId =
      ({ id := 0, inEdges := [], outEdges := [], group := none,
         observers := [10, 11] } : Node).observers.filter
        (fun oid => observerEnabled exG5 oid) :=
  ((observable_node_fanout exG5 0 (.on_out_node_inserted 0 1 0)
    { id := 0, inEdges := [], outEdges := [], group := none,
      observers := [10, 11] } rfl).1).1

/-- Claim C7: every newly created observer is enabled — a
default-constructed observer answers isEnabled() with true, and after
attaching a freshly created observer to a node (before any disable()) the
container reports it enabled. -/
theorem observer_starts_enabled :
    observer.default.isEnabled = true ∧
    ∀ (g : Graph) (nid oid : Nat) (n : Node),
      findNode g.nodes nid = some n → oid ∉ n.observers →
      findObs g.obs oid = none →
      observerEnabled (attach_observer g nid oid) oid = true := by
  refine ⟨rfl, ?_⟩
  intro g nid oid n hn hmem hobs
  simp only [attach_observer, hn, if_neg hmem, hobs]
  unfold observerEnabled
  rw [findObs_append_right hobs]
  simp [findObs, observer.isEnabled, observer.set_target, observer.default]

/-- Claim C7 witness: attaching the fresh observer 7 to node 0 of the
one-node example container leaves it enabled. -/
theorem observer_starts_enabled_witness :
    observerEnabled (attach_observer exG1 0 7) 7 = true :=
  observer_starts_enabled.2 exG1 0 7
    { id := 0, inEdges := [], outEdges := [], group := none, observers := [] }
    rfl (by simp) rfl

end Gtpo
